import Mathlib

/-
Verification of the software renderer core (main.rs): a Drawer owning a
packed-color buffer and a z-buffer, with clear, pixel, line and triangle
operations.  Machine f32 values are embedded as exact rationals; u32 and
usize casts are modelled with explicit wrapping and saturation.
-/

namespace SR

/-- Modulus of u32 arithmetic. -/
def M32 : ℕ := 4294967296

/-- Largest usize value (64-bit). -/
def USZmax : ℕ := 18446744073709551615

/-- Wrapping u32 subtraction, as in release-mode Rust. -/
def wsub (a b : ℕ) : ℕ := (a % M32 + (M32 - b % M32)) % M32

/-- An 8-bit-per-channel color, as palette Srgb with u8 components. -/
structure Color where
  red : Fin 256
  green : Fin 256
  blue : Fin 256
deriving DecidableEq

/-- Packing used by Drawer.pixel: blue | green << 8 | red << 16 on u32. -/
def Color.pack (c : Color) : ℕ :=
  c.blue.val ||| c.green.val <<< 8 ||| c.red.val <<< 16

/-- The Drawer state: softbuffer pixel buffer, z-buffer, screen size. -/
structure Drawer where
  buffer : List ℕ
  zbuffer : List (Option ℚ)
  width : ℕ
  height : ℕ
deriving DecidableEq

/-- Drawer::new: the given buffer plus a z-buffer of width*height entries
seeded with f32 negative infinity (none in this embedding). -/
def Drawer.new (buffer : List ℕ) (width height : ℕ) : Drawer :=
  ⟨buffer, List.replicate (width * height) none, width, height⟩

/-- Drawer::clear: for i in 0..(width*height), buffer[i] = 0; the loop
bound is the u32 product screen_size.x * screen_size.y, which wraps in
release mode, so it is reduced mod 2^32 here. -/
def Drawer.clear (d : Drawer) : Drawer :=
  { d with buffer :=
      (List.range (d.width * d.height % M32)).foldl (fun b i => b.set i 0) d.buffer }

/-- Drawer::pixel: flip y by u32 subtraction height - y, then write the
packed color at the linear u32 index pos.y * width + pos.x when that index
is below width * height (u32 product). -/
def Drawer.pixel (d : Drawer) (x y : ℕ) (c : Color) : Drawer :=
  let py := wsub d.height y
  let idx := (py * d.width + x % M32) % M32
  if idx < d.width * d.height % M32 then
    { d with buffer := d.buffer.set idx c.pack }
  else d

/-- Saturating cast of an f32 value to u32 (as_uvec2 componentwise):
negative values go to 0, the rest truncate toward zero and saturate. -/
def f32ToU32 (q : ℚ) : ℕ :=
  if q < 0 then 0 else min (⌊q⌋).toNat (M32 - 1)

/-- Saturating cast of an f32 value to usize. -/
def f32ToUsize (q : ℚ) : ℕ :=
  if q < 0 then 0 else min (⌊q⌋).toNat USZmax

/-- Rust f32 round: to the nearest integer, ties away from zero. -/
def rustRound (q : ℚ) : ℤ :=
  if 0 ≤ q then ⌊q + 1 / 2⌋ else ⌈q - 1 / 2⌉

/-- Composite of f32 round and the saturating cast to usize, as in
pos.x.round() as usize. -/
def roundToUsize (q : ℚ) : ℕ := min (rustRound q).toNat USZmax

/-- Steepness test of Drawer::line: |dx| < |dy| on the original endpoints. -/
def lineSteep (pos1 pos2 : ℚ × ℚ) : Bool :=
  |pos1.1 - pos2.1| < |pos1.2 - pos2.2|

/-- Endpoint normalization of Drawer::line: transpose both endpoints when
steep, then swap the pair so iteration runs left to right in x. -/
def lineEnds (pos1 pos2 : ℚ × ℚ) : (ℚ × ℚ) × (ℚ × ℚ) :=
  let p1 := if lineSteep pos1 pos2 then (pos1.2, pos1.1) else pos1
  let p2 := if lineSteep pos1 pos2 then (pos2.2, pos2.1) else pos2
  if p2.1 < p1.1 then (p2, p1) else (p1, p2)

/-- Drawer::line: map each x of the usize range round(p1.x)..round(p2.x)
to t = (x - p1.x) / (p2.x - p1.x), interpolate, un-transpose when steep,
and write through Drawer.pixel after the saturating u32 cast. -/
def Drawer.line (d : Drawer) (pos1 pos2 : ℚ × ℚ) (c : Color) : Drawer :=
  let steep := lineSteep pos1 pos2
  let p := lineEnds pos1 pos2
  ((List.range' (roundToUsize p.1.1) (roundToUsize p.2.1 - roundToUsize p.1.1)).map
      (fun (x : ℕ) => ((x : ℚ) - p.1.1) / (p.2.1 - p.1.1))).foldl
    (fun dr t =>
      let px := p.1.1 + (p.2.1 - p.1.1) * t
      let py := p.1.2 + (p.2.2 - p.1.2) * t
      let pr := if steep then (py, px) else (px, py)
      dr.pixel (f32ToU32 pr.1) (f32ToU32 pr.2) c) d

/-- A 3-component f32 vector (glam Vec3), embedded over ℚ. -/
structure V3 where
  x : ℚ
  y : ℚ
  z : ℚ
deriving DecidableEq

/-- glam Vec3 cross product. -/
def V3.cross (a b : V3) : V3 :=
  ⟨a.y * b.z - a.z * b.y, a.z * b.x - a.x * b.z, a.x * b.y - a.y * b.x⟩

/-- Drawer::barycentric: build the two difference vectors from x and y
components, cross them, and divide; near-zero u.z yields the all-negative
sentinel. -/
def barycentric (p0 p1 p2 p : V3) : V3 :=
  let s0 : V3 := ⟨p2.x - p0.x, p1.x - p0.x, p0.x - p.x⟩
  let s1 : V3 := ⟨p2.y - p0.y, p1.y - p0.y, p0.y - p.y⟩
  let u := V3.cross s0 s1
  if 1 / 100 < |u.z| then ⟨1 - (u.x + u.y) / u.z, u.y / u.z, u.x / u.z⟩
  else ⟨-1, -1, -1⟩

/-- Comparison of a stored depth against a candidate; the seed value none
stands for f32 negative infinity and always loses. -/
def zlt : Option ℚ → ℚ → Bool
  | none, _ => true
  | some a, b => decide (a < b)

/-- Depth interpolation of Drawer::triangle: p.z += pts[i].z * bc[i]. -/
def interpZ (p0 p1 p2 bc : V3) : ℚ := p0.z * bc.x + p1.z * bc.y + p2.z * bc.z

/-- Loop body of Drawer::triangle for one pixel (x, y): barycentric test,
depth interpolation, depth test against zbuffer[x + y*width], then the
pixel write. -/
def Drawer.triPixel (p0 p1 p2 : V3) (c : Color) (d : Drawer) (x y : ℕ) : Drawer :=
  let bc := barycentric p0 p1 p2 ⟨(x : ℚ), (y : ℚ), 0⟩
  if 0 ≤ bc.x ∧ 0 ≤ bc.y ∧ 0 ≤ bc.z then
    let z := interpZ p0 p1 p2 bc
    let idx := f32ToUsize ((x : ℚ) + (y : ℚ) * (d.width : ℚ))
    if zlt (d.zbuffer.getD idx none) z then
      Drawer.pixel { d with zbuffer := d.zbuffer.set idx (some z) }
        (f32ToU32 (x : ℚ)) (f32ToU32 (y : ℚ)) c
    else d
  else d

/-- Bounding box computation of Drawer::triangle: fold the three points
into (bboxmin, bboxmax) starting from ((w,h),(0,0)) with clamp (w,h),
then cast each component to u32. -/
def triBBox (w h : ℕ) (p0 p1 p2 : V3) : (ℕ × ℕ) × (ℕ × ℕ) :=
  let wq : ℚ := (w : ℚ)
  let hq : ℚ := (h : ℚ)
  let mm := [p0, p1, p2].foldl
    (fun (mm : (ℚ × ℚ) × (ℚ × ℚ)) (p : V3) =>
      ((max 0 (min mm.1.1 p.x), max 0 (min mm.1.2 p.y)),
       (min wq (max mm.2.1 p.x), min hq (max mm.2.2 p.y))))
    ((wq, hq), (0, 0))
  ((f32ToU32 mm.1.1, f32ToU32 mm.1.2), (f32ToU32 mm.2.1, f32ToU32 mm.2.2))

/-- The (x, y) pairs enumerated by the nested loops of Drawer::triangle. -/
def testedPixels (w h : ℕ) (p0 p1 p2 : V3) : List (ℕ × ℕ) :=
  let bb := triBBox w h p0 p1 p2
  (List.range' bb.1.1 (bb.2.1 - bb.1.1)).flatMap
    (fun x => (List.range' bb.1.2 (bb.2.2 - bb.1.2)).map (fun y => (x, y)))

/-- Drawer::triangle: nested loops x in bboxmin.x..bboxmax.x, y in
bboxmin.y..bboxmax.y, running triPixel at each pair. -/
def Drawer.triangle (d : Drawer) (p0 p1 p2 : V3) (c : Color) : Drawer :=
  let bb := triBBox d.width d.height p0 p1 p2
  (List.range' bb.1.1 (bb.2.1 - bb.1.1)).foldl
    (fun dx x =>
      (List.range' bb.1.2 (bb.2.2 - bb.1.2)).foldl
        (fun dy y => Drawer.triPixel p0 p1 p2 c dy x y) dx)
    d

/-- Decidable form of the inside test of Drawer::triangle at pixel (x,y). -/
def insideB (p0 p1 p2 : V3) (x y : ℕ) : Bool :=
  let bc := barycentric p0 p1 p2 ⟨(x : ℚ), (y : ℚ), 0⟩
  decide (0 ≤ bc.x ∧ 0 ≤ bc.y ∧ 0 ≤ bc.z)

/-- Interpolated depth of Drawer::triangle at pixel (x,y). -/
def triZ (p0 p1 p2 : V3) (x y : ℕ) : ℚ :=
  interpZ p0 p1 p2 (barycentric p0 p1 p2 ⟨(x : ℚ), (y : ℚ), 0⟩)

/-- The pixel set asserted by the claim C6: integer points of the clamped
bounding box, inclusive of both ends, with bboxmin the componentwise max
of 0 and the minimum of the three points, and bboxmax the componentwise
min of the surface size and the maximum of the three points. -/
def specBBoxMemC6 (w h : ℕ) (p0 p1 p2 : V3) (x y : ℕ) : Prop :=
  max 0 (min p0.x (min p1.x p2.x)) ≤ (x : ℚ) ∧
  (x : ℚ) ≤ min (w : ℚ) (max p0.x (max p1.x p2.x)) ∧
  max 0 (min p0.y (min p1.y p2.y)) ≤ (y : ℚ) ∧
  (y : ℚ) ≤ min (h : ℚ) (max p0.y (max p1.y p2.y))

instance (w h : ℕ) (p0 p1 p2 : V3) (x y : ℕ) : Decidable (specBBoxMemC6 w h p0 p1 p2 x y) :=
  inferInstanceAs (Decidable (_ ∧ _ ∧ _ ∧ _))

/-- The reading of the line contract asserted by claim C7: iterate every
integer x of the signed interval from round(p1.x) to round(p2.x), and
write each interpolated point through the pixel operation after rounding
each coordinate to the nearest integer. -/
def lineSpecC7 (d : Drawer) (pos1 pos2 : ℚ × ℚ) (c : Color) : Drawer :=
  let steep := lineSteep pos1 pos2
  let p := lineEnds pos1 pos2
  ((List.range (rustRound p.2.1 - rustRound p.1.1).toNat).map
      (fun (k : ℕ) => rustRound p.1.1 + (k : ℤ))).foldl
    (fun dr xi =>
      let t := ((xi : ℚ) - p.1.1) / (p.2.1 - p.1.1)
      let px := p.1.1 + (p.2.1 - p.1.1) * t
      let py := p.1.2 + (p.2.2 - p.1.2) * t
      let pr := if steep then (py, px) else (px, py)
      dr.pixel (rustRound pr.1).toNat (rustRound pr.2).toNat c) d

/-- The amended reading of the line contract for claim C7: the x range is
the usize range (negative rounds clamp to 0) and the written point is cast
with the saturating truncation toward zero, not rounded to nearest. -/
def lineAmendedC7 (d : Drawer) (pos1 pos2 : ℚ × ℚ) (c : Color) : Drawer :=
  let steep := lineSteep pos1 pos2
  let p := lineEnds pos1 pos2
  (List.range' (roundToUsize p.1.1) (roundToUsize p.2.1 - roundToUsize p.1.1)).foldl
    (fun dr (x : ℕ) =>
      let t := ((x : ℚ) - p.1.1) / (p.2.1 - p.1.1)
      let px := p.1.1 + (p.2.1 - p.1.1) * t
      let py := p.1.2 + (p.2.2 - p.1.2) * t
      let pr := if steep then (py, px) else (px, py)
      dr.pixel (f32ToU32 pr.1) (f32ToU32 pr.2) c) d

/-- Concrete color with red 255. -/
def redC : Color := ⟨255, 0, 0⟩

/-- Concrete color with green 255. -/
def greenC : Color := ⟨0, 255, 0⟩

/-- Concrete color with all channels 255. -/
def whiteC : Color := ⟨255, 255, 255⟩

/-- Vertex of a concrete triangle at depth 1. -/
def ptA0 : V3 := ⟨0, 0, 1⟩

/-- Vertex of a concrete triangle at depth 1. -/
def ptA1 : V3 := ⟨3, 0, 1⟩

/-- Vertex of a concrete triangle at depth 1. -/
def ptA2 : V3 := ⟨0, 3, 1⟩

/-- Vertex of a concrete triangle at depth 0. -/
def ptB0 : V3 := ⟨0, 0, 0⟩

/-- Vertex of a concrete triangle at depth 0. -/
def ptB1 : V3 := ⟨3, 0, 0⟩

/-- Vertex of a concrete triangle at depth 0. -/
def ptB2 : V3 := ⟨0, 3, 0⟩

/-- A fresh concrete 4 by 4 drawer with a zeroed buffer. -/
def d4 : Drawer := Drawer.new (List.replicate 16 0) 4 4

attribute [local semireducible] Rat.add Rat.mul Rat.inv Rat.sub

/-! Basic list access lemmas. -/

lemma getDset_eq {α : Type} (l : List α) (i : ℕ) (v dflt : α) (h : i < l.length) :
    (l.set i v).getD i dflt = v := by
  rw [List.getD_eq_getElem?_getD, List.getElem?_set_self h, Option.getD_some]

lemma getDset_ne {α : Type} (l : List α) {i j : ℕ} (v dflt : α) (h : i ≠ j) :
    (l.set i v).getD j dflt = l.getD j dflt := by
  rw [List.getD_eq_getElem?_getD, List.getElem?_set_ne h, ← List.getD_eq_getElem?_getD]

/-! Packing arithmetic: the bit-ors of Color.pack act on disjoint bytes. -/

lemma lor_shift {n : ℕ} (a b : ℕ) (ha : a < 2 ^ n) : a ||| b <<< n = a + b * 2 ^ n := by
  apply Nat.eq_of_testBit_eq
  intro i
  rw [Nat.testBit_lor, Nat.testBit_shiftLeft,
    show a + b * 2 ^ n = 2 ^ n * b + a by ring, Nat.testBit_mul_pow_two_add b ha i]
  by_cases hi : i < n
  · simp [hi, Nat.not_le.mpr hi]
  · have hle : n ≤ i := Nat.not_lt.mp hi
    have hz : a.testBit i = false :=
      Nat.testBit_lt_two_pow (lt_of_lt_of_le ha (Nat.pow_le_pow_right (by norm_num) hle))
    simp [hi, hle, hz]

lemma Color.pack_eq (c : Color) :
    c.pack = c.blue.val + 256 * c.green.val + 65536 * c.red.val := by
  unfold Color.pack
  have h1 : c.blue.val ||| c.green.val <<< 8 = c.blue.val + c.green.val * 256 :=
    lor_shift (n := 8) _ _ (by have := c.blue.isLt; omega)
  rw [h1]
  have h2 : c.blue.val + c.green.val * 256 ||| c.red.val <<< 16
      = (c.blue.val + c.green.val * 256) + c.red.val * 65536 :=
    lor_shift (n := 16) _ _ (by have := c.blue.isLt; have := c.green.isLt; omega)
  rw [h2]; ring

lemma Color.pack_lt (c : Color) : c.pack < 16777216 := by
  rw [c.pack_eq]
  have := c.blue.isLt; have := c.green.isLt; have := c.red.isLt
  omega

/-! Wrapping subtraction in range. -/

lemma wsub_eq {h y : ℕ} (hy : y ≤ h) (hh : h < M32) : wsub h y = h - y := by
  unfold wsub M32 at *
  have h1 : h % 4294967296 = h := Nat.mod_eq_of_lt hh
  have h2 : y % 4294967296 = y := Nat.mod_eq_of_lt (lt_of_le_of_lt hy hh)
  rw [h1, h2]
  omega

/-! Saturating cast lemmas. -/

lemma f32ToU32_natCast (n : ℕ) (hn : n < M32) : f32ToU32 (n : ℚ) = n := by
  unfold f32ToU32 M32 at *
  rw [if_neg (not_lt.mpr (Nat.cast_nonneg n)), Int.floor_natCast, Int.toNat_natCast]
  omega

lemma f32ToUsize_natCast (n : ℕ) (hn : n ≤ USZmax) : f32ToUsize (n : ℚ) = n := by
  unfold f32ToUsize
  rw [if_neg (not_lt.mpr (Nat.cast_nonneg n)), Int.floor_natCast, Int.toNat_natCast]
  omega

lemma f32ToU32_le {q : ℚ} {n : ℕ} (h : q ≤ (n : ℚ)) : f32ToU32 q ≤ n := by
  unfold f32ToU32
  split
  · exact Nat.zero_le n
  · refine le_trans (min_le_left _ _) ?_
    rw [Int.toNat_le]
    exact_mod_cast le_trans (Int.floor_le_floor h) (le_of_eq (Int.floor_natCast n))

/-! Field preservation by the drawing operations. -/

@[simp] lemma pixel_width (d : Drawer) (x y : ℕ) (c : Color) :
    (d.pixel x y c).width = d.width := by
  unfold Drawer.pixel; dsimp only; split <;> rfl

@[simp] lemma pixel_height (d : Drawer) (x y : ℕ) (c : Color) :
    (d.pixel x y c).height = d.height := by
  unfold Drawer.pixel; dsimp only; split <;> rfl

@[simp] lemma pixel_zbuffer (d : Drawer) (x y : ℕ) (c : Color) :
    (d.pixel x y c).zbuffer = d.zbuffer := by
  unfold Drawer.pixel; dsimp only; split <;> rfl

@[simp] lemma pixel_buffer_length (d : Drawer) (x y : ℕ) (c : Color) :
    (d.pixel x y c).buffer.length = d.buffer.length := by
  unfold Drawer.pixel; dsimp only; split <;> simp

@[simp] lemma triPixel_width (p0 p1 p2 : V3) (c : Color) (d : Drawer) (x y : ℕ) :
    (Drawer.triPixel p0 p1 p2 c d x y).width = d.width := by
  unfold Drawer.triPixel; dsimp only; split
  · split <;> simp
  · rfl

@[simp] lemma triPixel_height (p0 p1 p2 : V3) (c : Color) (d : Drawer) (x y : ℕ) :
    (Drawer.triPixel p0 p1 p2 c d x y).height = d.height := by
  unfold Drawer.triPixel; dsimp only; split
  · split <;> simp
  · rfl

@[simp] lemma triPixel_zbuffer_length (p0 p1 p2 : V3) (c : Color) (d : Drawer) (x y : ℕ) :
    (Drawer.triPixel p0 p1 p2 c d x y).zbuffer.length = d.zbuffer.length := by
  unfold Drawer.triPixel; dsimp only; split
  · split <;> simp
  · rfl

@[simp] lemma triPixel_buffer_length (p0 p1 p2 : V3) (c : Color) (d : Drawer) (x y : ℕ) :
    (Drawer.triPixel p0 p1 p2 c d x y).buffer.length = d.buffer.length := by
  unfold Drawer.triPixel; dsimp only; split
  · split <;> simp
  · rfl

@[simp] lemma clear_width (d : Drawer) : d.clear.width = d.width := rfl

@[simp] lemma clear_height (d : Drawer) : d.clear.height = d.height := rfl

@[simp] lemma clear_zbuffer (d : Drawer) : d.clear.zbuffer = d.zbuffer := rfl

/-! Index arithmetic for the linear buffer layout. -/

lemma idx_lt_area {w h x y : ℕ} (hx : x < w) (hy : y < h) : x + y * w < w * h := by
  have h1 : y * w ≤ (h - 1) * w := Nat.mul_le_mul_right w (by omega)
  have h3 : h - 1 + 1 = h := by omega
  calc x + y * w < w + y * w := Nat.add_lt_add_right hx _
    _ ≤ w + (h - 1) * w := Nat.add_le_add_left h1 w
    _ = (h - 1 + 1) * w := by rw [Nat.succ_mul, Nat.add_comm]
    _ = h * w := by rw [h3]
    _ = w * h := Nat.mul_comm h w

lemma flip_idx_lt {w h x y : ℕ} (hx : x < w) (hy1 : 1 ≤ y) (hy : y ≤ h) :
    (h - y) * w + x < w * h := by
  have h1 : (h - y) * w ≤ (h - 1) * w := Nat.mul_le_mul_right w (by omega)
  have h3 : h - 1 + 1 = h := by omega
  calc (h - y) * w + x ≤ (h - 1) * w + x := Nat.add_le_add_right h1 x
    _ < (h - 1) * w + w := Nat.add_lt_add_left hx _
    _ = (h - 1 + 1) * w := by rw [Nat.succ_mul]
    _ = h * w := by rw [h3]
    _ = w * h := Nat.mul_comm h w

lemma flip_idx_lt_M32 {w h x y : ℕ} (hx : x < w) (hy : y ≤ h) (hM : (h + 1) * w ≤ M32) :
    (h - y) * w + x < M32 := by
  calc (h - y) * w + x ≤ h * w + x := Nat.add_le_add_right (Nat.mul_le_mul_right w (Nat.sub_le h y)) x
    _ < h * w + w := Nat.add_lt_add_left hx _
    _ = (h + 1) * w := by rw [Nat.succ_mul]
    _ ≤ M32 := hM

lemma area_lt_M32 {w h : ℕ} (hw : 0 < w) (hM : (h + 1) * w ≤ M32) : w * h < M32 := by
  calc w * h = h * w := Nat.mul_comm w h
    _ < (h + 1) * w := Nat.mul_lt_mul_of_lt_of_le (Nat.lt_succ_self h) (le_refl w) hw
    _ ≤ M32 := hM

lemma height_lt_M32 {w h : ℕ} (hw : 0 < w) (hM : (h + 1) * w ≤ M32) : h < M32 := by
  have h1 : h + 1 ≤ (h + 1) * w := Nat.le_mul_of_pos_right (h + 1) hw
  omega

lemma addmul_inj {w a x p q : ℕ} (ha : a < w) (hx : x < w) (he : a + p * w = x + q * w) :
    a = x ∧ p = q := by
  have h1 : (a + p * w) % w = (x + q * w) % w := by rw [he]
  rw [Nat.add_mul_mod_self_right, Nat.add_mul_mod_self_right,
    Nat.mod_eq_of_lt ha, Nat.mod_eq_of_lt hx] at h1
  subst h1
  refine ⟨rfl, ?_⟩
  have h2 : p * w = q * w := by omega
  exact Nat.eq_of_mul_eq_mul_right (by omega) h2

lemma zidx_ne {w a b x y : ℕ} (ha : a < w) (hx : x < w) (hne : ¬(a = x ∧ b = y)) :
    a + b * w ≠ x + y * w :=
  fun he => hne ⟨(addmul_inj ha hx he).1, (addmul_inj ha hx he).2⟩

lemma bidx_ne {w h a b x y : ℕ} (ha : a < w) (hx : x < w) (hb : b ≤ h) (hy : y ≤ h)
    (hne : ¬(a = x ∧ b = y)) : (h - b) * w + a ≠ (h - y) * w + x := by
  intro he
  rw [Nat.add_comm ((h - b) * w) a, Nat.add_comm ((h - y) * w) x] at he
  obtain ⟨h1, h2⟩ := addmul_inj ha hx he
  exact hne ⟨h1, by omega⟩

/-! Characterization of a single pixel write. -/

lemma pixel_spec (d : Drawer) (x y : ℕ) (c : Color)
    (hy : y ≤ d.height) (hh : d.height < M32) (hx : x < M32)
    (hidx : (d.height - y) * d.width + x < M32)
    (hwh : d.width * d.height < M32) :
    d.pixel x y c =
      if (d.height - y) * d.width + x < d.width * d.height
      then { d with buffer := d.buffer.set ((d.height - y) * d.width + x) c.pack }
      else d := by
  unfold Drawer.pixel
  dsimp only
  rw [wsub_eq hy hh, Nat.mod_eq_of_lt hx, Nat.mod_eq_of_lt hidx, Nat.mod_eq_of_lt hwh]

/-! Characterization of the per-pixel triangle step. -/

lemma insideB_iff (p0 p1 p2 : V3) (x y : ℕ) :
    insideB p0 p1 p2 x y = true ↔
      (0 ≤ (barycentric p0 p1 p2 ⟨(x : ℚ), (y : ℚ), 0⟩).x ∧
       0 ≤ (barycentric p0 p1 p2 ⟨(x : ℚ), (y : ℚ), 0⟩).y ∧
       0 ≤ (barycentric p0 p1 p2 ⟨(x : ℚ), (y : ℚ), 0⟩).z) := by
  unfold insideB
  exact decide_eq_true_iff

lemma triPixel_spec (p0 p1 p2 : V3) (c : Color) (d : Drawer) (w h x y : ℕ)
    (hdw : d.width = w) (hdh : d.height = h)
    (hM : (h + 1) * w ≤ M32) (hx : x < w) (hy : y < h) :
    Drawer.triPixel p0 p1 p2 c d x y =
      if 0 ≤ (barycentric p0 p1 p2 ⟨(x : ℚ), (y : ℚ), 0⟩).x ∧
         0 ≤ (barycentric p0 p1 p2 ⟨(x : ℚ), (y : ℚ), 0⟩).y ∧
         0 ≤ (barycentric p0 p1 p2 ⟨(x : ℚ), (y : ℚ), 0⟩).z then
        (if zlt (d.zbuffer.getD (x + y * w) none) (triZ p0 p1 p2 x y) then
          { d with zbuffer := d.zbuffer.set (x + y * w) (some (triZ p0 p1 p2 x y)),
                   buffer := if (h - y) * w + x < w * h
                             then d.buffer.set ((h - y) * w + x) c.pack
                             else d.buffer }
         else d)
      else d := by
  subst hdw hdh
  have hw0 : 0 < d.width := lt_of_le_of_lt (Nat.zero_le x) hx
  have hh0 : 0 < d.height := lt_of_le_of_lt (Nat.zero_le y) hy
  have hhM : d.height < M32 := height_lt_M32 hw0 hM
  have hwh : d.width * d.height < M32 := area_lt_M32 hw0 hM
  have hxyw : x + y * d.width < d.width * d.height := idx_lt_area hx hy
  have hxM : x < M32 := by
    have h1 : d.width ≤ d.width * d.height := Nat.le_mul_of_pos_right d.width hh0
    omega
  have hyM : y < M32 := by omega
  have hidx : f32ToUsize ((x : ℚ) + (y : ℚ) * (d.width : ℚ)) = x + y * d.width := by
    rw [show ((x : ℚ) + (y : ℚ) * (d.width : ℚ)) = ((x + y * d.width : ℕ) : ℚ) by push_cast; ring]
    refine f32ToUsize_natCast _ ?_
    unfold USZmax M32 at *
    omega
  have hfx : f32ToU32 ((x : ℚ)) = x := f32ToU32_natCast x hxM
  have hfy : f32ToU32 ((y : ℚ)) = y := f32ToU32_natCast y hyM
  have hps := pixel_spec
    { d with zbuffer := d.zbuffer.set (x + y * d.width) (some (triZ p0 p1 p2 x y)) } x y c
    (le_of_lt hy) hhM hxM (flip_idx_lt_M32 hx (le_of_lt hy) hM) hwh
  dsimp only at hps
  unfold Drawer.triPixel triZ
  unfold triZ at hps
  dsimp only
  rw [hidx, hfx, hfy]
  split_ifs with h1 h2 h3
  · rw [hps, if_pos h3]
  · rw [hps, if_neg h3]
  · rfl
  · rfl

lemma triPixel_zAt_ne (p0 p1 p2 : V3) (c : Color) (d : Drawer) (w h x y i : ℕ)
    (hdw : d.width = w) (hdh : d.height = h)
    (hM : (h + 1) * w ≤ M32) (hx : x < w) (hy : y < h)
    (hi : i ≠ x + y * w) :
    (Drawer.triPixel p0 p1 p2 c d x y).zbuffer.getD i none = d.zbuffer.getD i none := by
  rw [triPixel_spec p0 p1 p2 c d w h x y hdw hdh hM hx hy]
  split_ifs <;> first
    | rfl
    | exact getDset_ne _ _ _ (Ne.symm hi)

lemma triPixel_bAt_ne (p0 p1 p2 : V3) (c : Color) (d : Drawer) (w h x y j : ℕ)
    (hdw : d.width = w) (hdh : d.height = h)
    (hM : (h + 1) * w ≤ M32) (hx : x < w) (hy : y < h)
    (hj : j ≠ (h - y) * w + x) :
    (Drawer.triPixel p0 p1 p2 c d x y).buffer.getD j 0 = d.buffer.getD j 0 := by
  rw [triPixel_spec p0 p1 p2 c d w h x y hdw hdh hM hx hy]
  split_ifs <;> first
    | rfl
    | exact getDset_ne _ _ _ (Ne.symm hj)

/-! Fold lemmas for the rasterization loops. -/

lemma foldl_flatMap {α β γ : Type} (g : α → List β) (f : γ → β → γ) :
    ∀ (l : List α) (init : γ),
      (l.flatMap g).foldl f init = l.foldl (fun st a => (g a).foldl f st) init := by
  intro l
  induction l with
  | nil => intro init; rfl
  | cons a t ih =>
    intro init
    rw [List.flatMap_cons, List.foldl_append, List.foldl_cons, ih]

lemma triangle_eq_fold (d : Drawer) (p0 p1 p2 : V3) (c : Color) :
    d.triangle p0 p1 p2 c =
      (testedPixels d.width d.height p0 p1 p2).foldl
        (fun dr xy => Drawer.triPixel p0 p1 p2 c dr xy.1 xy.2) d := by
  unfold Drawer.triangle testedPixels
  dsimp only
  rw [foldl_flatMap]
  congr 1
  funext st a
  rw [List.foldl_map]

lemma triBBox_le (w h : ℕ) (p0 p1 p2 : V3) :
    (triBBox w h p0 p1 p2).2.1 ≤ w ∧ (triBBox w h p0 p1 p2).2.2 ≤ h := by
  unfold triBBox
  dsimp only [List.foldl]
  exact ⟨f32ToU32_le (min_le_left _ _), f32ToU32_le (min_le_left _ _)⟩

lemma testedPixels_mem (w h : ℕ) (p0 p1 p2 : V3) (x y : ℕ) :
    (x, y) ∈ testedPixels w h p0 p1 p2 ↔
      ((triBBox w h p0 p1 p2).1.1 ≤ x ∧ x < (triBBox w h p0 p1 p2).2.1 ∧
       (triBBox w h p0 p1 p2).1.2 ≤ y ∧ y < (triBBox w h p0 p1 p2).2.2) := by
  unfold testedPixels
  dsimp only
  simp only [List.mem_flatMap, List.mem_map, List.mem_range', Prod.mk.injEq, one_mul]
  constructor
  · rintro ⟨a, ⟨i, hi, rfl⟩, b, ⟨j, hj, rfl⟩, hax, hby⟩
    omega
  · intro hcon
    exact ⟨x, ⟨x - (triBBox w h p0 p1 p2).1.1, by omega, by omega⟩,
      y, ⟨y - (triBBox w h p0 p1 p2).1.2, by omega, by omega⟩, rfl, rfl⟩

lemma testedPixels_bounds (w h : ℕ) (p0 p1 p2 : V3) :
    ∀ p ∈ testedPixels w h p0 p1 p2, p.1 < w ∧ p.2 < h := by
  rintro ⟨a, b⟩ hp
  rw [testedPixels_mem] at hp
  obtain ⟨hw1, hh1⟩ := triBBox_le w h p0 p1 p2
  omega

lemma nodup_pairs {xs ys : List ℕ} (hxs : xs.Nodup) (hys : ys.Nodup) :
    (xs.flatMap (fun x => ys.map (fun y => (x, y)))).Nodup := by
  induction xs with
  | nil => simp
  | cons a t ih =>
    rw [List.flatMap_cons]
    obtain ⟨hat, ht⟩ := List.nodup_cons.mp hxs
    refine List.Nodup.append ?_ (ih ht) ?_
    · exact List.Nodup.map (fun y1 y2 he => congrArg Prod.snd he) hys
    · intro p hp1 hp2
      obtain ⟨b, _, rfl⟩ := List.mem_map.mp hp1
      obtain ⟨a2, ha2, hp3⟩ := List.mem_flatMap.mp hp2
      obtain ⟨b2, _, hp4⟩ := List.mem_map.mp hp3
      have : a2 = a := congrArg Prod.fst hp4
      exact hat (this ▸ ha2)

lemma testedPixels_nodup (w h : ℕ) (p0 p1 p2 : V3) : (testedPixels w h p0 p1 p2).Nodup := by
  unfold testedPixels
  dsimp only
  exact nodup_pairs (List.nodup_range' _ _) (List.nodup_range' _ _)

/-! Untouched entries across a run of triangle loop steps. -/

lemma fold_tri_untouched (p0 p1 p2 : V3) (c : Color) (w h x y : ℕ)
    (hM : (h + 1) * w ≤ M32) (hx : x < w) (hy : y ≤ h) :
    ∀ (l : List (ℕ × ℕ)) (d : Drawer),
      d.width = w → d.height = h →
      (∀ p ∈ l, p.1 < w ∧ p.2 < h) → (x, y) ∉ l →
      (l.foldl (fun dr xy => Drawer.triPixel p0 p1 p2 c dr xy.1 xy.2) d).zbuffer.getD (x + y * w) none
          = d.zbuffer.getD (x + y * w) none ∧
      (l.foldl (fun dr xy => Drawer.triPixel p0 p1 p2 c dr xy.1 xy.2) d).buffer.getD ((h - y) * w + x) 0
          = d.buffer.getD ((h - y) * w + x) 0 ∧
      (l.foldl (fun dr xy => Drawer.triPixel p0 p1 p2 c dr xy.1 xy.2) d).width = w ∧
      (l.foldl (fun dr xy => Drawer.triPixel p0 p1 p2 c dr xy.1 xy.2) d).height = h ∧
      (l.foldl (fun dr xy => Drawer.triPixel p0 p1 p2 c dr xy.1 xy.2) d).zbuffer.length = d.zbuffer.length ∧
      (l.foldl (fun dr xy => Drawer.triPixel p0 p1 p2 c dr xy.1 xy.2) d).buffer.length = d.buffer.length := by
  intro l
  induction l with
  | nil => intro d hdw hdh _ _; exact ⟨rfl, rfl, hdw, hdh, rfl, rfl⟩
  | cons p t ih =>
    intro d hdw hdh hbd hnm
    obtain ⟨a, b⟩ := p
    have hab := hbd (a, b) (List.mem_cons_self _ _)
    have hne : ¬(a = x ∧ b = y) := by
      rintro ⟨rfl, rfl⟩
      exact hnm (List.mem_cons_self _ _)
    rw [List.foldl_cons]
    have hz := triPixel_zAt_ne p0 p1 p2 c d w h a b (x + y * w) hdw hdh hM hab.1 hab.2
      (Ne.symm (zidx_ne hab.1 hx hne))
    have hb := triPixel_bAt_ne p0 p1 p2 c d w h a b ((h - y) * w + x) hdw hdh hM hab.1 hab.2
      (Ne.symm (bidx_ne hab.1 hx (le_of_lt hab.2) hy hne))
    have ih2 := ih (Drawer.triPixel p0 p1 p2 c d a b) (by simp [hdw]) (by simp [hdh])
      (fun q hq => hbd q (List.mem_cons_of_mem _ hq))
      (fun hmem => hnm (List.mem_cons_of_mem _ hmem))
    exact ⟨ih2.1.trans hz, ih2.2.1.trans hb, ih2.2.2.1, ih2.2.2.2.1,
      ih2.2.2.2.2.1.trans (by simp), ih2.2.2.2.2.2.trans (by simp)⟩

/-! Per-pixel effect of the full triangle loop. -/

lemma fold_tri_effect (p0 p1 p2 : V3) (c : Color) (w h x y : ℕ)
    (hM : (h + 1) * w ≤ M32) (hx : x < w) (hy : y < h)
    (hin : insideB p0 p1 p2 x y = true) :
    ∀ (l : List (ℕ × ℕ)) (d : Drawer),
      d.width = w → d.height = h →
      d.zbuffer.length = w * h → d.buffer.length = w * h →
      (x, y) ∈ l → l.Nodup → (∀ p ∈ l, p.1 < w ∧ p.2 < h) →
      ((l.foldl (fun dr xy => Drawer.triPixel p0 p1 p2 c dr xy.1 xy.2) d).zbuffer.getD (x + y * w) none
          = (if zlt (d.zbuffer.getD (x + y * w) none) (triZ p0 p1 p2 x y)
             then some (triZ p0 p1 p2 x y) else d.zbuffer.getD (x + y * w) none))
      ∧ (1 ≤ y →
          (l.foldl (fun dr xy => Drawer.triPixel p0 p1 p2 c dr xy.1 xy.2) d).buffer.getD ((h - y) * w + x) 0
            = (if zlt (d.zbuffer.getD (x + y * w) none) (triZ p0 p1 p2 x y)
               then c.pack else d.buffer.getD ((h - y) * w + x) 0)) := by
  intro l
  induction l with
  | nil => intro d _ _ _ _ hmem _ _; exact absurd hmem (List.not_mem_nil _)
  | cons p t ih =>
    intro d hdw hdh hzl hbl hmem hnd hbd
    obtain ⟨a, b⟩ := p
    rw [List.foldl_cons]
    by_cases hpe : a = x ∧ b = y
    · obtain ⟨rfl, rfl⟩ := hpe
      have hnotin : (a, b) ∉ t := (List.nodup_cons.mp hnd).1
      have hspec := triPixel_spec p0 p1 p2 c d w h a b hdw hdh hM hx hy
      rw [if_pos ((insideB_iff p0 p1 p2 a b).mp hin)] at hspec
      have hunt := fold_tri_untouched p0 p1 p2 c w h a b hM hx (le_of_lt hy) t
        (Drawer.triPixel p0 p1 p2 c d a b) (by simp [hdw]) (by simp [hdh])
        (fun q hq => hbd q (List.mem_cons_of_mem _ hq)) hnotin
      constructor
      · rw [hunt.1, hspec]
        by_cases hzt : zlt (d.zbuffer.getD (a + b * w) none) (triZ p0 p1 p2 a b) = true
        · rw [if_pos hzt, if_pos hzt]
          exact getDset_eq _ _ _ _ (by rw [hzl]; exact idx_lt_area hx hy)
        · rw [if_neg hzt, if_neg hzt]
      · intro hy1
        rw [hunt.2.1, hspec]
        by_cases hzt : zlt (d.zbuffer.getD (a + b * w) none) (triZ p0 p1 p2 a b) = true
        · rw [if_pos hzt, if_pos hzt]
          have hflip : (h - b) * w + a < w * h := flip_idx_lt hx hy1 (le_of_lt hy)
          dsimp only
          rw [if_pos hflip]
          exact getDset_eq _ _ _ _ (by rw [hbl]; exact hflip)
        · rw [if_neg hzt, if_neg hzt]
    · have hab := hbd (a, b) (List.mem_cons_self _ _)
      have hmem2 : (x, y) ∈ t := by
        rcases List.mem_cons.mp hmem with he | ht2
        · exact absurd ⟨(congrArg Prod.fst he).symm, (congrArg Prod.snd he).symm⟩ hpe
        · exact ht2
      have hz1 : (Drawer.triPixel p0 p1 p2 c d a b).zbuffer.getD (x + y * w) none
          = d.zbuffer.getD (x + y * w) none :=
        triPixel_zAt_ne p0 p1 p2 c d w h a b (x + y * w) hdw hdh hM hab.1 hab.2
          (Ne.symm (zidx_ne hab.1 hx hpe))
      have hb1 : (Drawer.triPixel p0 p1 p2 c d a b).buffer.getD ((h - y) * w + x) 0
          = d.buffer.getD ((h - y) * w + x) 0 :=
        triPixel_bAt_ne p0 p1 p2 c d w h a b ((h - y) * w + x) hdw hdh hM hab.1 hab.2
          (Ne.symm (bidx_ne hab.1 hx (le_of_lt hab.2) (le_of_lt hy) hpe))
      have ihx := ih (Drawer.triPixel p0 p1 p2 c d a b) (by simp [hdw]) (by simp [hdh])
        (by simp [hzl]) (by simp [hbl]) hmem2 (List.nodup_cons.mp hnd).2
        (fun q hq => hbd q (List.mem_cons_of_mem _ hq))
      constructor
      · rw [ihx.1, hz1]
      · intro hy1
        rw [ihx.2 hy1, hz1, hb1]

lemma triangle_effect (p0 p1 p2 : V3) (c : Color) (d : Drawer) (w h x y : ℕ)
    (hdw : d.width = w) (hdh : d.height = h)
    (hzl : d.zbuffer.length = w * h) (hbl : d.buffer.length = w * h)
    (hM : (h + 1) * w ≤ M32)
    (hmem : (x, y) ∈ testedPixels w h p0 p1 p2)
    (hin : insideB p0 p1 p2 x y = true) :
    ((d.triangle p0 p1 p2 c).zbuffer.getD (x + y * w) none
        = if zlt (d.zbuffer.getD (x + y * w) none) (triZ p0 p1 p2 x y)
          then some (triZ p0 p1 p2 x y) else d.zbuffer.getD (x + y * w) none)
    ∧ (1 ≤ y → (d.triangle p0 p1 p2 c).buffer.getD ((h - y) * w + x) 0
        = if zlt (d.zbuffer.getD (x + y * w) none) (triZ p0 p1 p2 x y)
          then c.pack else d.buffer.getD ((h - y) * w + x) 0) := by
  have hb := testedPixels_bounds w h p0 p1 p2 (x, y) hmem
  rw [triangle_eq_fold, hdw, hdh]
  exact fold_tri_effect p0 p1 p2 c w h x y hM hb.1 hb.2 hin _ d hdw hdh hzl hbl hmem
    (testedPixels_nodup w h p0 p1 p2) (testedPixels_bounds w h p0 p1 p2)

/-! Record extensionality for Drawer. -/

lemma Drawer.eq_of_fields {d1 d2 : Drawer} (hb : d1.buffer = d2.buffer)
    (hz : d1.zbuffer = d2.zbuffer) (hw : d1.width = d2.width)
    (hh : d1.height = d2.height) : d1 = d2 := by
  cases d1; cases d2
  simp only [Drawer.mk.injEq]
  exact ⟨hb, hz, hw, hh⟩

/-! The clear loop. -/

lemma foldl_set_len : ∀ (is : List ℕ) (l : List ℕ),
    (is.foldl (fun b i => b.set i 0) l).length = l.length := by
  intro is
  induction is with
  | nil => intro l; rfl
  | cons i t ih => intro l; rw [List.foldl_cons, ih, List.length_set]

lemma foldl_set_getElem? : ∀ (n : ℕ) (l : List ℕ) (j : ℕ),
    ((List.range n).foldl (fun b i => b.set i 0) l)[j]? =
      if j < n ∧ j < l.length then some 0 else l[j]? := by
  intro n
  induction n with
  | zero => intro l j; simp
  | succ n ih =>
    intro l j
    rw [List.range_succ, List.foldl_append, List.foldl_cons, List.foldl_nil,
      List.getElem?_set, foldl_set_len, ih]
    split_ifs <;> first
      | rfl
      | (exact (List.getElem?_eq_none (by omega)).symm)
      | (exfalso; omega)

lemma clear_buffer (d : Drawer) (hlen : d.buffer.length = d.width * d.height)
    (hwh : d.width * d.height < M32) :
    d.clear.buffer = List.replicate (d.width * d.height) 0 := by
  apply List.ext_getElem?
  intro j
  show ((List.range (d.width * d.height % M32)).foldl (fun b i => b.set i 0) d.buffer)[j]? = _
  rw [Nat.mod_eq_of_lt hwh, foldl_set_getElem?, List.getElem?_replicate, hlen]
  split_ifs <;> first
    | rfl
    | (exact List.getElem?_eq_none (by omega))
    | (exfalso; omega)

lemma clear_clear (d : Drawer) (hlen : d.buffer.length = d.width * d.height)
    (hwh : d.width * d.height < M32) :
    d.clear.clear = d.clear := by
  have h1 : d.clear.buffer = List.replicate (d.width * d.height) 0 := clear_buffer d hlen hwh
  have h2 : d.clear.clear.buffer = d.clear.buffer := by
    rw [clear_buffer d.clear (by rw [h1]; simp [List.length_replicate]) hwh, h1]
    rfl
  exact Drawer.eq_of_fields h2 rfl rfl rfl

/-! Identity folds and out-of-range writes of the line loop. -/

lemma foldl_fixed {α : Type} {f : Drawer → α → Drawer} {d : Drawer} :
    ∀ (l : List α), (∀ a ∈ l, f d a = d) → l.foldl f d = d := by
  intro l
  induction l with
  | nil => intro _; rfl
  | cons a t ih =>
    intro hstep
    rw [List.foldl_cons, hstep a (List.mem_cons_self _ _)]
    exact ih (fun b hb => hstep b (List.mem_cons_of_mem _ hb))

lemma pixel_y0_id (d : Drawer) (x : ℕ) (c : Color) (hx : x < 10)
    (hw : 10 < d.width) (hh : 0 < d.height) (hov : d.width * d.height + 10 ≤ M32) :
    d.pixel x 0 c = d := by
  have hcomm : d.width * d.height = d.height * d.width := Nat.mul_comm _ _
  have hh32 : d.height < M32 := by
    have h1 : d.height ≤ d.width * d.height := Nat.le_mul_of_pos_left _ (by omega)
    unfold M32 at *
    omega
  unfold Drawer.pixel
  dsimp only
  rw [wsub_eq (Nat.zero_le _) hh32, Nat.sub_zero,
    Nat.mod_eq_of_lt (show x < M32 by unfold M32 at *; omega),
    Nat.mod_eq_of_lt (show d.height * d.width + x < M32 by unfold M32 at *; omega),
    Nat.mod_eq_of_lt (show d.width * d.height < M32 by unfold M32 at *; omega),
    if_neg (by omega)]

lemma line00_step (d : Drawer) (c : Color) (t : ℚ) (hw : 10 < d.width) (hh : 0 < d.height)
    (hov : d.width * d.height + 10 ≤ M32) (ht : 0 ≤ t) (ht1 : t < 1) :
    d.pixel (f32ToU32 ((0 : ℚ) + ((10 : ℚ) - 0) * t)) (f32ToU32 ((0 : ℚ) + ((0 : ℚ) - 0) * t)) c
      = d := by
  have hy : (0 : ℚ) + ((0 : ℚ) - 0) * t = 0 := by ring
  have hy0 : f32ToU32 (0 : ℚ) = 0 := by decide
  have hq : (0 : ℚ) + ((10 : ℚ) - 0) * t = 10 * t := by ring
  have hqnn : ¬((10 : ℚ) * t < 0) := not_lt.mpr (by positivity)
  have hqlt : (10 : ℚ) * t < 10 := by nlinarith
  have hflt : ⌊(10 : ℚ) * t⌋ < 10 := by
    have := Int.floor_le ((10 : ℚ) * t)
    have h2 : ⌊(10 : ℚ) * t⌋ < (10 : ℤ) := by
      rw [Int.floor_lt]
      exact_mod_cast hqlt
    exact h2
  have hxlt : f32ToU32 ((0 : ℚ) + ((10 : ℚ) - 0) * t) < 10 := by
    rw [hq]
    unfold f32ToU32
    rw [if_neg hqnn]
    unfold M32
    omega
  rw [hy, hy0]
  exact pixel_y0_id d _ c hxlt hw hh hov

/-! The fresh depth buffer. -/

lemma new_zAt (buf : List ℕ) (w h i : ℕ) :
    (Drawer.new buf w h).zbuffer.getD i none = none := by
  unfold Drawer.new
  dsimp only
  rw [List.getD_eq_getElem?_getD, List.getElem?_replicate]
  split_ifs <;> rfl

lemma triangle_dims (d : Drawer) (p0 p1 p2 : V3) (c : Color) :
    (d.triangle p0 p1 p2 c).width = d.width ∧ (d.triangle p0 p1 p2 c).height = d.height ∧
    (d.triangle p0 p1 p2 c).zbuffer.length = d.zbuffer.length ∧
    (d.triangle p0 p1 p2 c).buffer.length = d.buffer.length := by
  rw [triangle_eq_fold]
  generalize testedPixels d.width d.height p0 p1 p2 = l
  induction l generalizing d with
  | nil => exact ⟨rfl, rfl, rfl, rfl⟩
  | cons p t ih =>
    rw [List.foldl_cons]
    obtain ⟨i1, i2, i3, i4⟩ := ih (Drawer.triPixel p0 p1 p2 c d p.1 p.2)
    exact ⟨i1.trans (by simp), i2.trans (by simp), i3.trans (by simp), i4.trans (by simp)⟩

/-! Claim theorems. -/

/-- Claim C2 counterexample: the call at (4, 2) on a 4 by 4 surface is out
of bounds in x, yet the buffer changes, because the bounds check is on the
linear index only and an out-of-range x wraps into a later stored row. -/
theorem pixel_out_of_bounds_counterexample :
    ¬(4 < (Drawer.new (List.replicate 16 0) 4 4).width) ∧
    ((Drawer.new (List.replicate 16 0) 4 4).pixel 4 2 whiteC).buffer
      ≠ (Drawer.new (List.replicate 16 0) 4 4).buffer ∧
    ((Drawer.new (List.replicate 16 0) 4 4).pixel 4 2 whiteC).buffer.getD 12 0 = whiteC.pack := by
  decide

/-- Claim C2 (amended): for a call with coordinates outside the bounds, y
at most height and all quantities u32-representable, the call returns the
drawer unchanged when the computed linear index (height - y) * width + x
reaches width * height; when that index is smaller, which can happen for
x at least width, the call overwrites exactly the entry at that index
with the packed color and preserves every other entry. -/
theorem pixel_out_of_bounds_amended (d : Drawer) (x y : ℕ) (c : Color)
    (hlen : d.buffer.length = d.width * d.height)
    (hy : y ≤ d.height) (hh : d.height < M32) (hx : x < M32)
    (hidx : (d.height - y) * d.width + x < M32)
    (hwh : d.width * d.height < M32)
    (hout : ¬(x < d.width ∧ y < d.height)) :
    (d.width * d.height ≤ (d.height - y) * d.width + x → d.pixel x y c = d) ∧
    ((d.height - y) * d.width + x < d.width * d.height →
      ((d.pixel x y c).buffer.getD ((d.height - y) * d.width + x) 0 = c.pack ∧
       ∀ j, j ≠ (d.height - y) * d.width + x →
         (d.pixel x y c).buffer.getD j 0 = d.buffer.getD j 0)) := by
  have hps := pixel_spec d x y c hy hh hx hidx hwh
  constructor
  · intro hge
    rw [hps, if_neg (not_lt.mpr hge)]
  · intro hlt
    rw [hps, if_pos hlt]
    constructor
    · exact getDset_eq _ _ _ _ (by rw [hlen]; exact hlt)
    · intro j hj
      exact getDset_ne _ _ _ (Ne.symm hj)

/-- Witness for the amended claim C2 at the concrete out-of-range call
(4, 2) on a 4 by 4 surface, whose index 12 lies inside the buffer. -/
theorem pixel_out_of_bounds_amended_witness :
    ((Drawer.new (List.replicate 16 0) 4 4).buffer.length =
        (Drawer.new (List.replicate 16 0) 4 4).width *
          (Drawer.new (List.replicate 16 0) 4 4).height ∧
     2 ≤ (Drawer.new (List.replicate 16 0) 4 4).height ∧
     (Drawer.new (List.replicate 16 0) 4 4).height < M32 ∧
     4 < M32 ∧
     ((Drawer.new (List.replicate 16 0) 4 4).height - 2) *
        (Drawer.new (List.replicate 16 0) 4 4).width + 4 < M32 ∧
     (Drawer.new (List.replicate 16 0) 4 4).width *
        (Drawer.new (List.replicate 16 0) 4 4).height < M32 ∧
     ¬(4 < (Drawer.new (List.replicate 16 0) 4 4).width ∧
        2 < (Drawer.new (List.replicate 16 0) 4 4).height)) ∧
    (((Drawer.new (List.replicate 16 0) 4 4).width *
          (Drawer.new (List.replicate 16 0) 4 4).height ≤
        ((Drawer.new (List.replicate 16 0) 4 4).height - 2) *
          (Drawer.new (List.replicate 16 0) 4 4).width + 4 →
        (Drawer.new (List.replicate 16 0) 4 4).pixel 4 2 whiteC =
          Drawer.new (List.replicate 16 0) 4 4) ∧
     (((Drawer.new (List.replicate 16 0) 4 4).height - 2) *
          (Drawer.new (List.replicate 16 0) 4 4).width + 4 <
        (Drawer.new (List.replicate 16 0) 4 4).width *
          (Drawer.new (List.replicate 16 0) 4 4).height →
        (((Drawer.new (List.replicate 16 0) 4 4).pixel 4 2 whiteC).buffer.getD
            (((Drawer.new (List.replicate 16 0) 4 4).height - 2) *
              (Drawer.new (List.replicate 16 0) 4 4).width + 4) 0 = whiteC.pack ∧
         ∀ j, j ≠ ((Drawer.new (List.replicate 16 0) 4 4).height - 2) *
              (Drawer.new (List.replicate 16 0) 4 4).width + 4 →
           ((Drawer.new (List.replicate 16 0) 4 4).pixel 4 2 whiteC).buffer.getD j 0 =
             (Drawer.new (List.replicate 16 0) 4 4).buffer.getD j 0))) :=
  ⟨⟨by decide, by decide, by decide, by decide, by decide, by decide, by decide⟩,
    pixel_out_of_bounds_amended (Drawer.new (List.replicate 16 0) 4 4) 4 2 whiteC
      (by decide) (by decide) (by decide) (by decide) (by decide) (by decide) (by decide)⟩

/-- Claim C3: the pixel write computes stored_y = height - y and stores
the packed color, blue in the low byte, green in the middle byte, red in
the high byte, at the linear index stored_y * width + x iff that index is
below width * height, and otherwise writes nothing. -/
theorem pixel_write_characterization (d : Drawer) (x y : ℕ) (c : Color)
    (hy : y ≤ d.height) (hh : d.height < M32) (hx : x < M32)
    (hidx : (d.height - y) * d.width + x < M32)
    (hwh : d.width * d.height < M32) :
    (d.pixel x y c =
      if (d.height - y) * d.width + x < d.width * d.height
      then { d with buffer := d.buffer.set ((d.height - y) * d.width + x) c.pack }
      else d) ∧
    c.pack = c.blue.val + 256 * c.green.val + 65536 * c.red.val :=
  ⟨pixel_spec d x y c hy hh hx hidx hwh, c.pack_eq⟩

/-- Witness for claim C3 at the in-range call (1, 2) on a 4 by 4 surface. -/
theorem pixel_write_characterization_witness :
    (2 ≤ (Drawer.new (List.replicate 16 0) 4 4).height ∧
     (Drawer.new (List.replicate 16 0) 4 4).height < M32 ∧
     1 < M32 ∧
     ((Drawer.new (List.replicate 16 0) 4 4).height - 2) *
        (Drawer.new (List.replicate 16 0) 4 4).width + 1 < M32 ∧
     (Drawer.new (List.replicate 16 0) 4 4).width *
        (Drawer.new (List.replicate 16 0) 4 4).height < M32) ∧
    ((Drawer.new (List.replicate 16 0) 4 4).pixel 1 2 redC =
      (if ((Drawer.new (List.replicate 16 0) 4 4).height - 2) *
            (Drawer.new (List.replicate 16 0) 4 4).width + 1 <
          (Drawer.new (List.replicate 16 0) 4 4).width *
            (Drawer.new (List.replicate 16 0) 4 4).height
       then { Drawer.new (List.replicate 16 0) 4 4 with
                buffer := (Drawer.new (List.replicate 16 0) 4 4).buffer.set
                  (((Drawer.new (List.replicate 16 0) 4 4).height - 2) *
                    (Drawer.new (List.replicate 16 0) 4 4).width + 1) redC.pack }
       else Drawer.new (List.replicate 16 0) 4 4) ∧
     redC.pack = redC.blue.val + 256 * redC.green.val + 65536 * redC.red.val) :=
  ⟨⟨by decide, by decide, by decide, by decide, by decide⟩,
    pixel_write_characterization (Drawer.new (List.replicate 16 0) 4 4) 1 2 redC
      (by decide) (by decide) (by decide) (by decide) (by decide)⟩

/-- Claim C5: the barycentric computation crosses the two difference
vectors into u, returns the claimed weight triple when |u.z| > 1/100 and
the all-strictly-negative sentinel otherwise, and the triangle loop body
draws a pixel only when all three returned weights are nonnegative. -/
theorem barycentric_formula_inside_gate (p0 p1 p2 p : V3) (c : Color) (d : Drawer) (x y : ℕ) :
    (barycentric p0 p1 p2 p =
      (let u := V3.cross ⟨p2.x - p0.x, p1.x - p0.x, p0.x - p.x⟩
          ⟨p2.y - p0.y, p1.y - p0.y, p0.y - p.y⟩
       if 1 / 100 < |u.z| then ⟨1 - (u.x + u.y) / u.z, u.y / u.z, u.x / u.z⟩
       else ⟨-1, -1, -1⟩)) ∧
    ((⟨-1, -1, -1⟩ : V3).x < 0 ∧ (⟨-1, -1, -1⟩ : V3).y < 0 ∧ (⟨-1, -1, -1⟩ : V3).z < 0) ∧
    (Drawer.triPixel p0 p1 p2 c d x y =
      if 0 ≤ (barycentric p0 p1 p2 ⟨(x : ℚ), (y : ℚ), 0⟩).x ∧
         0 ≤ (barycentric p0 p1 p2 ⟨(x : ℚ), (y : ℚ), 0⟩).y ∧
         0 ≤ (barycentric p0 p1 p2 ⟨(x : ℚ), (y : ℚ), 0⟩).z
      then Drawer.triPixel p0 p1 p2 c d x y
      else d) := by
  refine ⟨rfl, by norm_num, ?_⟩
  split_ifs with h1
  · rfl
  · unfold Drawer.triPixel
    dsimp only
    rw [if_neg h1]

/-- Claim C6 counterexample: pixel (2, 0) lies in the inclusive clamped
bounding box of this triangle but is not among the tested pixels, because
the loops are half-open at bboxmax. -/
theorem triangle_bbox_inclusive_counterexample :
    specBBoxMemC6 10 10 ⟨0, 0, 0⟩ ⟨2, 0, 0⟩ ⟨0, 2, 0⟩ 2 0 ∧
    (2, 0) ∉ testedPixels 10 10 ⟨0, 0, 0⟩ ⟨2, 0, 0⟩ ⟨0, 2, 0⟩ := by
  decide

/-- Claim C6 (amended): the pixels tested by Drawer.triangle are exactly
the integer pairs of the half-open box from bboxmin inclusive to bboxmax
exclusive, after the saturating u32 cast of the clamped rational bounds. -/
theorem triangle_bbox_halfopen (w h : ℕ) (p0 p1 p2 : V3) (x y : ℕ) :
    ((x, y) ∈ testedPixels w h p0 p1 p2 ↔
      ((triBBox w h p0 p1 p2).1.1 ≤ x ∧ x < (triBBox w h p0 p1 p2).2.1 ∧
       (triBBox w h p0 p1 p2).1.2 ≤ y ∧ y < (triBBox w h p0 p1 p2).2.2)) ∧
    (∀ (d : Drawer) (c : Color),
      d.triangle p0 p1 p2 c =
        (testedPixels d.width d.height p0 p1 p2).foldl
          (fun dr xy => Drawer.triPixel p0 p1 p2 c dr xy.1 xy.2) d) :=
  ⟨testedPixels_mem w h p0 p1 p2 x y, fun d c => triangle_eq_fold d p0 p1 p2 c⟩

/-- Claim C9: when the width * height product is u32-representable (so
the wrapping loop bound of the source equals it) and the buffer has that
length, clear sets every one of the width * height pixel entries to 0,
leaves the depth buffer unchanged, and clearing twice equals clearing
once. -/
theorem clear_spec (d : Drawer) (hlen : d.buffer.length = d.width * d.height)
    (hwh : d.width * d.height < M32) :
    d.clear.buffer = List.replicate (d.width * d.height) 0 ∧
    d.clear.zbuffer = d.zbuffer ∧
    d.clear.clear = d.clear :=
  ⟨clear_buffer d hlen hwh, rfl, clear_clear d hlen hwh⟩

/-- Witness for claim C9 on a concrete 4 by 4 drawer. -/
theorem clear_spec_witness :
    ((Drawer.new (List.replicate 16 3) 4 4).buffer.length =
       (Drawer.new (List.replicate 16 3) 4 4).width * (Drawer.new (List.replicate 16 3) 4 4).height ∧
     (Drawer.new (List.replicate 16 3) 4 4).width *
       (Drawer.new (List.replicate 16 3) 4 4).height < M32) ∧
    ((Drawer.new (List.replicate 16 3) 4 4).clear.buffer =
        List.replicate ((Drawer.new (List.replicate 16 3) 4 4).width *
          (Drawer.new (List.replicate 16 3) 4 4).height) 0 ∧
      (Drawer.new (List.replicate 16 3) 4 4).clear.zbuffer =
        (Drawer.new (List.replicate 16 3) 4 4).zbuffer ∧
      (Drawer.new (List.replicate 16 3) 4 4).clear.clear =
        (Drawer.new (List.replicate 16 3) 4 4).clear) :=
  ⟨⟨by decide, by decide⟩, clear_spec (Drawer.new (List.replicate 16 3) 4 4) (by decide) (by decide)⟩

/-- Claim C10: when the two endpoints share an x coordinate after the
transpose-and-order normalization, in particular for any zero-length
segment, the iteration range is empty and the line draws nothing. -/
theorem line_degenerate_draws_nothing (d : Drawer) (pos1 pos2 : ℚ × ℚ) (c : Color)
    (he : (lineEnds pos1 pos2).1.1 = (lineEnds pos1 pos2).2.1) :
    roundToUsize (lineEnds pos1 pos2).2.1 - roundToUsize (lineEnds pos1 pos2).1.1 = 0 ∧
    d.line pos1 pos2 c = d := by
  constructor
  · rw [he, Nat.sub_self]
  · unfold Drawer.line
    dsimp only
    rw [he, Nat.sub_self]
    rfl

/-- Claim C4 counterexample: at the inside pixel (1, 1) of this triangle
the depth test passes and the depth entry at x + y * width is updated, yet
the color is not stored at x + y * width; it lands at the y-flipped index
instead. -/
theorem triangle_depth_update_counterexample :
    insideB ptA0 ptA1 ptA2 1 1 = true ∧
    (d4.triangle ptA0 ptA1 ptA2 redC).zbuffer.getD (1 + 1 * 4) none
      = some (triZ ptA0 ptA1 ptA2 1 1) ∧
    (d4.triangle ptA0 ptA1 ptA2 redC).buffer.getD (1 + 1 * 4) 0 = 0 ∧
    redC.pack ≠ 0 ∧
    (d4.triangle ptA0 ptA1 ptA2 redC).buffer.getD ((4 - 1) * 4 + 1) 0 = redC.pack := by
  decide

/-- Claim C4 (amended): for a pixel classified as inside during
Drawer.triangle, the interpolated depth is the weighted sum of the vertex
z values, and iff the stored depth at index x + y * width is strictly less
than it, that depth entry is updated and the color is written through the
pixel operation, which stores the packed color at the y-flipped index
(height - y) * width + x when that index is in range; otherwise both
buffers are untouched. -/
theorem triangle_depth_update_amended (p0 p1 p2 : V3) (c : Color) (d : Drawer) (w h x y : ℕ)
    (hdw : d.width = w) (hdh : d.height = h)
    (hM : (h + 1) * w ≤ M32) (hx : x < w) (hy : y < h)
    (hin : insideB p0 p1 p2 x y = true) :
    (triZ p0 p1 p2 x y =
      p0.z * (barycentric p0 p1 p2 ⟨(x : ℚ), (y : ℚ), 0⟩).x +
      p1.z * (barycentric p0 p1 p2 ⟨(x : ℚ), (y : ℚ), 0⟩).y +
      p2.z * (barycentric p0 p1 p2 ⟨(x : ℚ), (y : ℚ), 0⟩).z) ∧
    (Drawer.triPixel p0 p1 p2 c d x y =
      if zlt (d.zbuffer.getD (x + y * w) none) (triZ p0 p1 p2 x y) then
        { d with zbuffer := d.zbuffer.set (x + y * w) (some (triZ p0 p1 p2 x y)),
                 buffer := if (h - y) * w + x < w * h
                           then d.buffer.set ((h - y) * w + x) c.pack
                           else d.buffer }
      else d) := by
  refine ⟨rfl, ?_⟩
  have hspec := triPixel_spec p0 p1 p2 c d w h x y hdw hdh hM hx hy
  rw [if_pos ((insideB_iff p0 p1 p2 x y).mp hin)] at hspec
  exact hspec

/-- Witness for the amended claim C4 at the inside pixel (1, 1) on the
concrete 4 by 4 drawer. -/
theorem triangle_depth_update_amended_witness :
    (d4.width = 4 ∧ d4.height = 4 ∧ (4 + 1) * 4 ≤ M32 ∧ 1 < 4 ∧
      insideB ptA0 ptA1 ptA2 1 1 = true) ∧
    ((triZ ptA0 ptA1 ptA2 1 1 =
      ptA0.z * (barycentric ptA0 ptA1 ptA2 ⟨((1 : ℕ) : ℚ), ((1 : ℕ) : ℚ), 0⟩).x +
      ptA1.z * (barycentric ptA0 ptA1 ptA2 ⟨((1 : ℕ) : ℚ), ((1 : ℕ) : ℚ), 0⟩).y +
      ptA2.z * (barycentric ptA0 ptA1 ptA2 ⟨((1 : ℕ) : ℚ), ((1 : ℕ) : ℚ), 0⟩).z) ∧
    (Drawer.triPixel ptA0 ptA1 ptA2 redC d4 1 1 =
      if zlt (d4.zbuffer.getD (1 + 1 * 4) none) (triZ ptA0 ptA1 ptA2 1 1) then
        { d4 with zbuffer := d4.zbuffer.set (1 + 1 * 4) (some (triZ ptA0 ptA1 ptA2 1 1)),
                  buffer := if (4 - 1) * 4 + 1 < 4 * 4
                            then d4.buffer.set ((4 - 1) * 4 + 1) redC.pack
                            else d4.buffer }
      else d4)) :=
  ⟨⟨by decide, by decide, by decide, by decide, by decide⟩,
    triangle_depth_update_amended ptA0 ptA1 ptA2 redC d4 4 4 1 1
      (by decide) (by decide) (by decide) (by decide) (by decide) (by decide)⟩

/-- Claim C7 counterexample: the code truncates the interpolated point
toward zero before the pixel write, while the claim rounds to nearest; on
this input the described process colors a stored entry that the code
leaves at 0. -/
theorem line_rounding_counterexample :
    ((Drawer.new (List.replicate 16 0) 4 4).line (0, 2) (2, 19/5) whiteC).buffer.getD 5 0 = 0 ∧
    (lineSpecC7 (Drawer.new (List.replicate 16 0) 4 4) (0, 2) (2, 19/5) whiteC).buffer.getD 5 0
      = whiteC.pack ∧
    whiteC.pack ≠ 0 := by
  decide

/-- Claim C7 (amended): Drawer.line transposes both endpoints when
|dx| < |dy|, orders them so iteration runs left to right, iterates the
integer x values of the usize range from round(p1.x) to round(p2.x) with
negative rounds clamped to 0, computes t = (x - p1.x) / (p2.x - p1.x),
interpolates, un-transposes when transposed, and writes through the pixel
operation after the saturating truncation toward zero. -/
theorem line_contract_amended (d : Drawer) (pos1 pos2 : ℚ × ℚ) (c : Color) :
    d.line pos1 pos2 c = lineAmendedC7 d pos1 pos2 c := by
  unfold Drawer.line lineAmendedC7
  dsimp only
  rw [List.foldl_map]

/-- Claim C8: the line from (0,0) to (10,0) on a surface with width above
10 colors exactly the stored row selected by the y-flip convention for
y = 0 at x in [0,10); that row is row height, whose entries lie outside
the buffer, so the pixel buffer is left unchanged. -/
theorem line_horizontal_y0 (d : Drawer) (c : Color)
    (hw : 10 < d.width) (hh : 0 < d.height)
    (hov : d.width * d.height + 10 ≤ M32) :
    (∀ x, x < 10 → d.width * d.height ≤ (d.height - 0) * d.width + x) ∧
    (d.line (0, 0) (10, 0) c).buffer = d.buffer := by
  have hcomm : d.width * d.height = d.height * d.width := Nat.mul_comm _ _
  constructor
  · intro x hx
    rw [Nat.sub_zero]
    omega
  · have hfold : d.line (0, 0) (10, 0) c = d := by
      have hsteep : lineSteep (0, 0) (10, 0) = false := by decide
      have hends : lineEnds (0, 0) (10, 0) = ((0, 0), (10, 0)) := by decide
      unfold Drawer.line
      dsimp only
      rw [hends, hsteep]
      dsimp only
      simp only [Bool.false_eq_true, if_false]
      apply foldl_fixed
      intro t ht
      obtain ⟨xv, hxv, rfl⟩ := List.mem_map.mp ht
      rw [List.mem_range'] at hxv
      obtain ⟨i, hi, rfl⟩ := hxv
      have hi10 : i < 10 := by
        have h10 : roundToUsize ((10 : ℚ)) = 10 := by decide
        have h0 : roundToUsize ((0 : ℚ)) = 0 := by decide
        omega
      have hxlt : ((0 + 1 * i : ℕ) : ℚ) < 10 := by
        exact_mod_cast (by omega : (0 + 1 * i : ℕ) < 10)
      have ht0 : (0 : ℚ) ≤ (((0 + 1 * i : ℕ) : ℚ) - 0) / (10 - 0) := by
        apply div_nonneg <;> norm_num
      have ht1 : (((0 + 1 * i : ℕ) : ℚ) - 0) / (10 - 0) < 1 := by
        rw [div_lt_one (by norm_num)]
        linarith
      exact line00_step d c _ hw hh hov ht0 ht1
    rw [hfold]

/-- Witness for claim C8 on a concrete 12 by 3 drawer. -/
theorem line_horizontal_y0_witness :
    (10 < (Drawer.new (List.replicate 36 7) 12 3).width ∧
     0 < (Drawer.new (List.replicate 36 7) 12 3).height ∧
     (Drawer.new (List.replicate 36 7) 12 3).width *
        (Drawer.new (List.replicate 36 7) 12 3).height + 10 ≤ M32) ∧
    ((∀ x, x < 10 →
        (Drawer.new (List.replicate 36 7) 12 3).width *
            (Drawer.new (List.replicate 36 7) 12 3).height ≤
          ((Drawer.new (List.replicate 36 7) 12 3).height - 0) *
            (Drawer.new (List.replicate 36 7) 12 3).width + x) ∧
      ((Drawer.new (List.replicate 36 7) 12 3).line (0, 0) (10, 0) redC).buffer =
        (Drawer.new (List.replicate 36 7) 12 3).buffer) :=
  ⟨⟨by decide, by decide, by decide⟩,
    line_horizontal_y0 (Drawer.new (List.replicate 36 7) 12 3) redC
      (by decide) (by decide) (by decide)⟩

/-- Claim C1: on a fresh surface, for two triangles drawn in either order,
a pixel covered by both with distinct interpolated depths ends up holding
the packed color of the triangle with the larger interpolated depth in its
storage entry, independent of draw order. -/
theorem triangle_depth_order_independent
    (buf : List ℕ) (w h : ℕ) (a0 a1 a2 b0 b1 b2 : V3) (cA cB : Color) (x y : ℕ)
    (hbuf : buf.length = w * h) (hM : (h + 1) * w ≤ M32)
    (hmemA : (x, y) ∈ testedPixels w h a0 a1 a2) (hinA : insideB a0 a1 a2 x y = true)
    (hmemB : (x, y) ∈ testedPixels w h b0 b1 b2) (hinB : insideB b0 b1 b2 x y = true)
    (hstore : (h - y) * w + x < w * h)
    (hz : triZ b0 b1 b2 x y < triZ a0 a1 a2 x y) :
    (((Drawer.new buf w h).triangle a0 a1 a2 cA).triangle b0 b1 b2 cB).buffer.getD
        ((h - y) * w + x) 0 = cA.pack ∧
    (((Drawer.new buf w h).triangle b0 b1 b2 cB).triangle a0 a1 a2 cA).buffer.getD
        ((h - y) * w + x) 0 = cA.pack := by
  obtain ⟨hxw, hyh⟩ := testedPixels_bounds w h a0 a1 a2 (x, y) hmemA
  have hy1 : 1 ≤ y := by
    by_contra hy0
    have hy00 : y = 0 := by omega
    subst hy00
    rw [Nat.sub_zero] at hstore
    have hc : w * h = h * w := Nat.mul_comm w h
    omega
  have hd0z : (Drawer.new buf w h).zbuffer.length = w * h := by
    unfold Drawer.new
    exact List.length_replicate _ _
  have hz0 : (Drawer.new buf w h).zbuffer.getD (x + y * w) none = none := new_zAt buf w h _
  have hltAB : zlt (some (triZ a0 a1 a2 x y)) (triZ b0 b1 b2 x y) = false :=
    decide_eq_false (not_lt.mpr (le_of_lt hz))
  have hltBA : zlt (some (triZ b0 b1 b2 x y)) (triZ a0 a1 a2 x y) = true :=
    decide_eq_true hz
  constructor
  · have effA := triangle_effect a0 a1 a2 cA (Drawer.new buf w h) w h x y rfl rfl hd0z hbuf
      hM hmemA hinA
    obtain ⟨dw1, dh1, dz1, db1⟩ := triangle_dims (Drawer.new buf w h) a0 a1 a2 cA
    have hzA : ((Drawer.new buf w h).triangle a0 a1 a2 cA).zbuffer.getD (x + y * w) none
        = some (triZ a0 a1 a2 x y) := by
      rw [effA.1, hz0]
      rfl
    have hbA : ((Drawer.new buf w h).triangle a0 a1 a2 cA).buffer.getD ((h - y) * w + x) 0
        = cA.pack := by
      rw [effA.2 hy1, hz0]
      rfl
    have effB := triangle_effect b0 b1 b2 cB ((Drawer.new buf w h).triangle a0 a1 a2 cA)
      w h x y dw1 dh1 (dz1.trans hd0z) (db1.trans hbuf) hM hmemB hinB
    rw [effB.2 hy1, hzA, hltAB]
    simp only [Bool.false_eq_true, if_false]
    exact hbA
  · have effB := triangle_effect b0 b1 b2 cB (Drawer.new buf w h) w h x y rfl rfl hd0z hbuf
      hM hmemB hinB
    obtain ⟨dw1, dh1, dz1, db1⟩ := triangle_dims (Drawer.new buf w h) b0 b1 b2 cB
    have hzB : ((Drawer.new buf w h).triangle b0 b1 b2 cB).zbuffer.getD (x + y * w) none
        = some (triZ b0 b1 b2 x y) := by
      rw [effB.1, hz0]
      rfl
    have effA := triangle_effect a0 a1 a2 cA ((Drawer.new buf w h).triangle b0 b1 b2 cB)
      w h x y dw1 dh1 (dz1.trans hd0z) (db1.trans hbuf) hM hmemA hinA
    rw [effA.2 hy1, hzB, hltBA]
    simp only [if_true]

/-- Witness for claim C1: two overlapping concrete triangles at depths 1
and 0 on a fresh 4 by 4 surface, checked at the covered pixel (1, 1). -/
theorem triangle_depth_order_independent_witness :
    ((List.replicate 16 (0 : ℕ)).length = 4 * 4 ∧ (4 + 1) * 4 ≤ M32 ∧
     (1, 1) ∈ testedPixels 4 4 ptA0 ptA1 ptA2 ∧ insideB ptA0 ptA1 ptA2 1 1 = true ∧
     (1, 1) ∈ testedPixels 4 4 ptB0 ptB1 ptB2 ∧ insideB ptB0 ptB1 ptB2 1 1 = true ∧
     (4 - 1) * 4 + 1 < 4 * 4 ∧
     triZ ptB0 ptB1 ptB2 1 1 < triZ ptA0 ptA1 ptA2 1 1) ∧
    ((((Drawer.new (List.replicate 16 0) 4 4).triangle ptA0 ptA1 ptA2 redC).triangle
          ptB0 ptB1 ptB2 greenC).buffer.getD ((4 - 1) * 4 + 1) 0 = redC.pack ∧
     (((Drawer.new (List.replicate 16 0) 4 4).triangle ptB0 ptB1 ptB2 greenC).triangle
          ptA0 ptA1 ptA2 redC).buffer.getD ((4 - 1) * 4 + 1) 0 = redC.pack) :=
  ⟨⟨by decide, by decide, by decide, by decide, by decide, by decide, by decide, by decide⟩,
    triangle_depth_order_independent (List.replicate 16 0) 4 4 ptA0 ptA1 ptA2
      ptB0 ptB1 ptB2 redC greenC 1 1 (by decide) (by decide) (by decide) (by decide)
      (by decide) (by decide) (by decide) (by decide)⟩

/-- Witness for claim C10 on the zero-length segment at (3, 7). -/
theorem line_degenerate_draws_nothing_witness :
    ((lineEnds (3, 7) (3, 7)).1.1 = (lineEnds (3, 7) (3, 7)).2.1) ∧
    (roundToUsize (lineEnds (3, 7) (3, 7)).2.1 - roundToUsize (lineEnds (3, 7) (3, 7)).1.1 = 0 ∧
      (Drawer.new (List.replicate 16 0) 4 4).line (3, 7) (3, 7) redC =
        Drawer.new (List.replicate 16 0) 4 4) :=
  ⟨by decide,
    line_degenerate_draws_nothing (Drawer.new (List.replicate 16 0) 4 4) (3, 7) (3, 7) redC
      (by decide)⟩

end SR
